import Mathlib

/-!
Verification of the RooFit code-squashing context
(`src/roofit/roofitcore/inc/RooFit/Detail/CodeSquashContext.h`).

The repository ships only the class header: the inline members
(`outputSize`, `addToCodeBody`, `buildCall`/`buildArgs`/`buildArg`,
the public `addResult`, the `LoopScope` RAII wrapper and the data
members) are source; the out-of-line member bodies (`getResult`,
`addResult(TNamed)`, `addToGlobalScope`, `assembleCode`, `addVecObs`,
`beginLoop`, `endLoop`, `getTmpVarName`, `saveAsTemp`,
`saveListAsArray`) are not in the repository files, so those are
modelled from the specification's words and marked as such.

Embedding choices: node identity handles (`TNamed const *`,
`RooFit::Detail::DataKey`) are `Nat`; the unique id of a collection is
`Nat`; the accumulating code body and the temp-scope buffer are kept
as ordered lists of emitted fragments (the C++ holds one string built
by appending those same fragments; `assembleCode` concatenates), so
that statement order and the splice point are visible to the theorems.
The splice pointer (`int _scopePtr = -1`) is an `Option Nat`, `none`
standing for the sentinel `-1`.  Machine integers that are only ever
incremented from zero (`_loopLevel`, `_tmpVarIdx`) are `Nat`.
A fallible lookup returns `Option`, `none` standing for the fatal
`NotFound` condition.
-/

/-- Decimal digits of `n`, least significant first, by fuel-based
structural recursion so concrete values reduce in the kernel. -/
def decDigitsF : Nat → Nat → List Nat
  | 0, _ => []
  | fuel + 1, n => if n = 0 then [] else n % 10 :: decDigitsF fuel (n / 10)

/-- Decimal digits of `n`, least significant first. -/
def decDigits (n : Nat) : List Nat := decDigitsF n n

/-- Value of a least-significant-first decimal digit list; retraction
used to prove the rendering injective. -/
def ofDecDigits : List Nat → Nat
  | [] => 0
  | d :: l => d + 10 * ofDecDigits l

/-- Decimal rendering of a counter. Modelled from the spec: the temp
name allocator is "a counter-suffixed base name"; the numeral printing
itself is an external collaborator of the core. -/
def natStr (n : Nat) : String := String.mk (((decDigits n).map Nat.digitChar).reverse)

/-- Inverse of `Nat.digitChar` on decimal digits. -/
def charVal (c : Char) : Nat := c.toNat - 48

/-- The state of `RooFit::Detail::CodeSquashContext`, one field per C++
data member (header lines 153-173).  `activeVars` additionally records
the loop variables held by the currently open `LoopScope` handles,
which in the C++ live in the scope objects rather than in the context;
it is needed to state the spec's loop-invariance rule for `saveAsTemp`. -/
structure CodeSquashContext where
  /-- Field `_nodeNames`: map of node names to their result strings;
  newest binding first, lookups take the first hit. -/
  nodeNames : List (Nat × String)
  /-- Field `_globalScope`: block of code placed before the function body. -/
  globalScope : String
  /-- Field `_vecObsIndices`: observable indices of non-scalar observables. -/
  vecObsIndices : List (Nat × Int)
  /-- Field `_nodeOutputSizes`: map of node output sizes, fixed at construction. -/
  nodeOutputSizes : List (Nat × Nat)
  /-- Field `_code`: the squashed code body, as emitted fragments in order. -/
  code : List String
  /-- Field `_loopLevel`: the current number of open for loops. -/
  loopLevel : Nat
  /-- Field `_tmpVarIdx`: index used to make unique temporary-variable names. -/
  tmpVarIdx : Nat
  /-- Field `_scopePtr`: position to go back and insert hoisted code at;
  `none` is the C++ sentinel `-1`. -/
  scopePtr : Option Nat
  /-- Field `_tempScope`: code that gets injected into the main body later,
  mainly declarations hoisted outside loops. -/
  tempScope : List String
  /-- Field `listNames`: names already assigned to collections, keyed by
  the collection's unique id. -/
  listNames : List (Nat × String)
  /-- Loop variables of the currently open loop scopes (ghost field,
  see the structure's doc comment). -/
  activeVars : List Nat
deriving DecidableEq

/-- The constructor `CodeSquashContext(outputSizes)` (header lines 37-39):
stores the output-size table, everything else empty. -/
def mkCodeSquashContext (sizes : List (Nat × Nat)) : CodeSquashContext :=
  ⟨[], "", [], sizes, [], 0, 0, none, [], [], []⟩

/-- Member `outputSize` (header lines 60-66): the stored size of the node, or 1
when the node is not in the table. -/
def outputSize (ctx : CodeSquashContext) (key : Nat) : Nat :=
  match ctx.nodeOutputSizes.lookup key with
  | some sz => sz
  | none => 1

/-- Member `addToCodeBody` (header line 75): append the input to the squashed
code body. -/
def addToCodeBody (ctx : CodeSquashContext) (s : String) : CodeSquashContext :=
  { ctx with code := ctx.code ++ [s] }

/-- Modelled from the spec: the body of `addToGlobalScope` is not in the
repository files; the global-scope buffer is append-only and never
spliced. -/
def addToGlobalScope (ctx : CodeSquashContext) (s : String) : CodeSquashContext :=
  { ctx with globalScope := ctx.globalScope ++ s }

/-- Modelled from the spec: the body of `getTmpVarName` is not in the
repository files; it returns a fresh, run-unique, counter-suffixed name
built from `_tmpVarIdx` and bumps the index. -/
def getTmpVarName (ctx : CodeSquashContext) : String × CodeSquashContext :=
  ("tmpVar" ++ natStr ctx.tmpVarIdx, { ctx with tmpVarIdx := ctx.tmpVarIdx + 1 })

/-- The assignment statement `saveAsTemp` emits for a variable name and
the expression saved into it. -/
def declStmt (name value : String) : String :=
  "const double " ++ name ++ " = " ++ value ++ ";\n"

/-- Modelled from the spec: the body of `saveAsTemp` is not in the
repository files.  It assigns the expression to a variable (the caller's
name when non-empty, else a fresh temp name), emits that assignment to
the temp-scope buffer when a loop is open and the node depends on no
currently active loop variable (the hoisting rule), otherwise to the
code body, and returns the variable name.  `G` gives each node's set of
vector-observable dependencies (external graph structure). -/
def saveAsTemp (G : Nat → List Nat) (ctx : CodeSquashContext) (node : Nat)
    (valueToSave : String) (name : String) : String × CodeSquashContext :=
  let p := if name = "" then getTmpVarName ctx else (name, ctx)
  let stmt := declStmt p.1 valueToSave
  if 0 < p.2.loopLevel ∧ ∀ v ∈ G node, v ∉ p.2.activeVars then
    (p.1, { p.2 with tempScope := p.2.tempScope ++ [stmt] })
  else
    (p.1, { p.2 with code := p.2.code ++ [stmt] })

/-- Modelled from the spec: the body of the private
`addResult(TNamed const *, std::string const &)` is not in the
repository files; it records the expression as the node's current
result (re-recording overwrites). -/
def addResultNamed (ctx : CodeSquashContext) (key : Nat) (value : String) :
    CodeSquashContext :=
  { ctx with nodeNames := (key, value) :: ctx.nodeNames }

/-- The public `addResult(RooAbsArg const *, std::string const &)`
(header lines 41-44): `addResult(key->namePtr(), saveAsTemp(key, value))`. -/
def addResult (G : Nat → List Nat) (ctx : CodeSquashContext) (key : Nat)
    (value : String) : CodeSquashContext :=
  let p := saveAsTemp G ctx key value ""
  addResultNamed p.2 key p.1

/-- Name of the synthetic index variable bound by the loop at the given
nesting level.  Modelled from the spec: loop headers bind synthetic
index variables that never collide with temp names. -/
def loopIdxName (level : Nat) : String := "loopIdx" ++ natStr level

/-- Modelled from the spec: the body of `getResult` is not in the
repository files.  A recorded result is returned as stored; a node
registered as a vector observable resolves to an indexed access into
the observable buffer using the loop index currently in scope; an
unknown node is the fatal `NotFound` condition, here `none`. -/
def getResult (ctx : CodeSquashContext) (key : Nat) : Option String :=
  match ctx.nodeNames.lookup key with
  | some s => some s
  | none =>
    match ctx.vecObsIndices.lookup key with
    | some idx => some ("obs[" ++ toString idx ++ " + " ++ loopIdxName ctx.loopLevel ++ "]")
    | none => none

/-- Modelled from the spec: the body of `addVecObs` is not in the
repository files; it registers that a node is a raw input column at the
given index. -/
def addVecObs (ctx : CodeSquashContext) (key : Nat) (idx : Int) : CodeSquashContext :=
  { ctx with vecObsIndices := (key, idx) :: ctx.vecObsIndices }

/-- Recorded result expressions of a list of nodes, in order; `none`
when one of them was never visited (fatal `NotFound`). -/
def resultsOf (ctx : CodeSquashContext) : List Nat → Option (List String)
  | [] => some []
  | k :: ks =>
    match getResult ctx k with
    | some s => (resultsOf ctx ks).map (fun l => s :: l)
    | none => none

/-- The array-initializer statement `saveListAsArray` emits. -/
def arrayDecl (name : String) (elems : List String) : String :=
  "double " ++ name ++ "[] = \x7b" ++ String.intercalate ", " elems ++ "\x7d;\n"

/-- Modelled from the spec: the body of `saveListAsArray` is not in the
repository files.  A collection already materialized (cache keyed by the
collection's unique id, the key type of the header's `listNames` map)
returns its cached name with no further emission; otherwise a name is
chosen (the caller's if non-empty, else a fresh temp name), one
array-initializer listing each member's recorded result is emitted, and
the id-to-name binding is cached. -/
def saveListAsArray (ctx : CodeSquashContext) (colId : Nat) (elems : List Nat)
    (name : String) : Option (String × CodeSquashContext) :=
  match ctx.listNames.lookup colId with
  | some n => some (n, ctx)
  | none =>
    let p := if name = "" then getTmpVarName ctx else (name, ctx)
    match resultsOf p.2 elems with
    | some rs =>
      some (p.1,
        { p.2 with
          code := p.2.code ++ [arrayDecl p.1 rs],
          listNames := (colId, p.1) :: p.2.listNames })
    | none => none

/-- The loop-header statement for a loop of the given trip count bound
at the given nesting level.  Modelled from the spec: `beginLoop` emits a
header iterating from 0 to the node's output size. -/
def loopHeader (sz level : Nat) : String :=
  "for (int " ++ loopIdxName level ++ " = 0; " ++ loopIdxName level ++ " < " ++
    natStr sz ++ "; " ++ loopIdxName level ++ "++) \x7b\n"

/-- The loop-closing statement emitted when a loop scope is released. -/
def loopCloser : String := "\x7d\n"

/-- Insert `ins` into `code` at position `p` (the splice of the hoisted
temp-scope content). -/
def spliceAt (code : List String) (p : Nat) (ins : List String) : List String :=
  code.take p ++ ins ++ code.drop p

/-- Modelled from the spec: the body of `beginLoop` is not in the
repository files.  When the loop level was 0 the current code-body
length is recorded as the splice pointer; the level is incremented, the
loop-header statement is emitted, and the loop variables (the vector
observables `G n` of the looped-over node) become active. -/
def beginLoop (G : Nat → List Nat) (ctx : CodeSquashContext) (n : Nat) :
    CodeSquashContext :=
  let ctx1 := if ctx.loopLevel = 0 then { ctx with scopePtr := some ctx.code.length } else ctx
  { ctx1 with
    code := ctx1.code ++ [loopHeader (outputSize ctx n) (ctx.loopLevel + 1)],
    loopLevel := ctx1.loopLevel + 1,
    activeVars := ctx1.activeVars ++ G n }

/-- Modelled from the spec: the body of `endLoop` is not in the
repository files.  Called by the `LoopScope` destructor (header line
97) with the scope's variables: the closing statement is emitted, the
level drops, the scope's variables stop being active, and when the
level returns to 0 the temp-scope buffer is spliced into the code body
at the recorded splice pointer, then cleared, and the pointer is
invalidated. -/
def endLoop (ctx : CodeSquashContext) (vars : List Nat) : CodeSquashContext :=
  let ctx1 := { ctx with
    code := ctx.code ++ [loopCloser],
    loopLevel := ctx.loopLevel - 1,
    activeVars := ctx.activeVars.take (ctx.activeVars.length - vars.length) }
  if ctx1.loopLevel = 0 then
    { ctx1 with
      code := spliceAt ctx1.code (ctx1.scopePtr.getD 0) ctx1.tempScope,
      tempScope := [],
      scopePtr := none }
  else ctx1

/-- Modelled from the spec: the body of `assembleCode` is not in the
repository files; it concatenates the global-scope buffer, the code
body, and a return statement built from the return expression, in that
order. -/
def assembleCode (ctx : CodeSquashContext) (returnExpr : String) : String :=
  ctx.globalScope ++ String.join ctx.code ++ ("return " ++ returnExpr ++ ";\n")

/-- One step of the caller's compilation run against the context.  The
`loop` constructor packages `beginLoop`, the body, and the `LoopScope`
destructor's `endLoop` call: C++ block scoping guarantees the release
fires exactly once, when the body ends, in reverse order of nesting, so
a run is this well-nested tree. -/
inductive Cmd where
  | skip
  | seq (a b : Cmd)
  | codeBody (s : String)
  | globalScope (s : String)
  | result (key : Nat) (value : String)
  | vecObs (key : Nat) (idx : Int)
  | temp (node : Nat) (value : String) (name : String)
  | listArray (colId : Nat) (elems : List Nat) (name : String)
  | loop (n : Nat) (body : Cmd)

/-- Run one command against the context.  A fatal condition inside
`saveListAsArray` (a member never visited) aborts that call, leaving
the state unchanged. -/
def exec (G : Nat → List Nat) : Cmd → CodeSquashContext → CodeSquashContext
  | .skip, ctx => ctx
  | .seq a b, ctx => exec G b (exec G a ctx)
  | .codeBody s, ctx => addToCodeBody ctx s
  | .globalScope s, ctx => addToGlobalScope ctx s
  | .result k v, ctx => addResult G ctx k v
  | .vecObs k i, ctx => addVecObs ctx k i
  | .temp m v nm, ctx => (saveAsTemp G ctx m v nm).2
  | .listArray id es nm, ctx =>
    match saveListAsArray ctx id es nm with
    | some p => p.2
    | none => ctx
  | .loop n body, ctx => endLoop (exec G body (beginLoop G ctx n)) (G n)

/-- A one-hole context into a command: where, at any nesting depth of
further loops, one command of interest sits inside a run. -/
inductive CmdK where
  | hole
  | seqL (k : CmdK) (b : Cmd)
  | seqR (a : Cmd) (k : CmdK)
  | loopK (n : Nat) (k : CmdK)

/-- Plug a command into the hole. -/
def CmdK.fill : CmdK → Cmd → Cmd
  | .hole, c => c
  | .seqL k b, c => .seq (k.fill c) b
  | .seqR a k, c => .seq a (k.fill c)
  | .loopK n k, c => .loop n (k.fill c)

/-- The loop variables bound by the loops along the path to the hole. -/
def CmdK.kvars (G : Nat → List Nat) : CmdK → List Nat
  | .hole => []
  | .seqL k _ => k.kvars G
  | .seqR _ k => k.kvars G
  | .loopK n k => G n ++ k.kvars G

/-- Nesting of loops over the listed nodes, innermost body `b`, looping over the listed nodes. -/
def nestLoops (ns : List Nat) (b : Cmd) : Cmd := ns.foldr Cmd.loop b

/-- The names produced by `n` successive `getTmpVarName` calls. -/
def genTmpNames : Nat → CodeSquashContext → List String
  | 0, _ => []
  | n + 1, ctx => (getTmpVarName ctx).1 :: genTmpNames n (getTmpVarName ctx).2

/-- An argument of `buildCall`, one constructor per `buildArg` overload
of the header (lines 119-137): `double`, `int`, `unsigned int`,
`long unsigned int`, `std::string`, `RooAbsCollection` (a collection id
plus its member nodes), `RooAbsArg`, and `RooTemplateProxy<T>` (which
forwards to the proxied node). -/
inductive CallArg where
  | dbl (x : Rat)
  | intc (x : Int)
  | uint (x : Nat)
  | ulong (x : Nat)
  | str (s : String)
  | coll (colId : Nat) (elems : List Nat)
  | node (key : Nat)
  | proxy (key : Nat)

/-- Modelled from the spec: `RooNumber::toString(double)`; printing of
numeric literals is an external collaborator of the core; rendered here
as the canonical rational rendering. -/
def rooNumberToString (x : Rat) : String := toString x

/-- The `buildArg` overloads (header lines 119-137): a numeric literal
becomes its textual form, a string passes through, a collection becomes
the materialized array's name via `saveListAsArray` (default name), and
a node or proxy becomes its recorded result via `getResult` (`none`
standing for the fatal `NotFound`). -/
def buildArg (ctx : CodeSquashContext) : CallArg → Option (String × CodeSquashContext)
  | .dbl x => some (rooNumberToString x, ctx)
  | .intc x => some (toString x, ctx)
  | .uint x => some (toString x, ctx)
  | .ulong x => some (toString x, ctx)
  | .str s => some (s, ctx)
  | .coll id es => saveListAsArray ctx id es ""
  | .node k => (getResult ctx k).map (fun s => (s, ctx))
  | .proxy k => (getResult ctx k).map (fun s => (s, ctx))

/-- The variadic `buildArgs` (header lines 139-151): no argument gives
the empty string, one argument converts alone, and otherwise the first
conversion is joined to the rest with the fixed separator `", "`.
Arguments are converted left to right, threading the context. -/
def buildArgs (ctx : CodeSquashContext) : List CallArg → Option (String × CodeSquashContext)
  | [] => some ("", ctx)
  | [a] => buildArg ctx a
  | a :: rest =>
    match buildArg ctx a with
    | some p => (buildArgs p.2 rest).map (fun q => (p.1 ++ ", " ++ q.1, q.2))
    | none => none

/-- Member `buildCall` (header lines 80-86): the function name followed by the
parenthesized, separator-joined parameter list. -/
def buildCall (ctx : CodeSquashContext) (funcname : String) (args : List CallArg) :
    Option (String × CodeSquashContext) :=
  (buildArgs ctx args).map (fun p => (funcname ++ "(" ++ p.1 ++ ")", p.2))

/-- The per-kind conversions of an argument list, in order, kept as a
list (the spec-side reading of §4.3: each argument converted per its
kind, then joined). -/
def buildArgList (ctx : CodeSquashContext) : List CallArg → Option (List String × CodeSquashContext)
  | [] => some ([], ctx)
  | a :: rest =>
    match buildArg ctx a with
    | some p => (buildArgList p.2 rest).map (fun q => (p.1 :: q.1, q.2))
    | none => none

/-- A concrete dependency map used to instantiate universally quantified
theorems: node 1 depends on the vector observable 10, every other node
on nothing. -/
def depsW : Nat → List Nat := fun k => if k = 1 then [10] else []

/-- The context reached from a fresh one by materializing the empty
collection with id 0 (used to instantiate theorems at a concrete input). -/
def ctxW1 : CodeSquashContext :=
  ((saveListAsArray (mkCodeSquashContext []) 0 [] "").getD ("", mkCodeSquashContext [])).2

theorem ofDecDigits_decDigitsF (fuel : Nat) :
    ∀ n, n ≤ fuel → ofDecDigits (decDigitsF fuel n) = n := by
  induction fuel with
  | zero =>
    intro n h
    have h0 : n = 0 := Nat.le_zero.mp h
    subst h0; rfl
  | succ f ih =>
    intro n h
    by_cases h0 : n = 0
    · subst h0; rfl
    · simp only [decDigitsF, h0, if_false, ofDecDigits]
      have hdiv : n / 10 ≤ f := by
        have : n / 10 < n := Nat.div_lt_self (Nat.pos_of_ne_zero h0) (by norm_num)
        omega
      rw [ih (n / 10) hdiv]
      exact Nat.mod_add_div n 10

theorem ofDecDigits_decDigits (n : Nat) : ofDecDigits (decDigits n) = n :=
  ofDecDigits_decDigitsF n n (Nat.le_refl n)

theorem decDigits_injective : Function.Injective decDigits := by
  intro a b h
  have := congrArg ofDecDigits h
  rwa [ofDecDigits_decDigits, ofDecDigits_decDigits] at this

theorem decDigitsF_lt (fuel : Nat) :
    ∀ n d, d ∈ decDigitsF fuel n → d < 10 := by
  induction fuel with
  | zero => intro n d hd; simp [decDigitsF] at hd
  | succ f ih =>
    intro n d hd
    by_cases h0 : n = 0
    · subst h0; simp [decDigitsF] at hd
    · simp only [decDigitsF, h0, if_false, List.mem_cons] at hd
      rcases hd with h1 | h2
      · subst h1; exact Nat.mod_lt n (by norm_num)
      · exact ih (n / 10) d h2

theorem charVal_digitChar : ∀ d, d < 10 → charVal (Nat.digitChar d) = d := by decide

theorem natStr_injective : Function.Injective natStr := by
  intro a b h
  have hdata := congrArg String.data h
  have hrev : ((decDigits a).map Nat.digitChar).reverse = ((decDigits b).map Nat.digitChar).reverse := hdata
  have hmap : (decDigits a).map Nat.digitChar = (decDigits b).map Nat.digitChar :=
    List.reverse_injective hrev
  have hval := congrArg (List.map charVal) hmap
  rw [List.map_map, List.map_map] at hval
  have ha : (decDigits a).map (charVal ∘ Nat.digitChar) = decDigits a := by
    rw [show (decDigits a).map (charVal ∘ Nat.digitChar) = (decDigits a).map id from
      List.map_congr_left (fun d hd => charVal_digitChar d (decDigitsF_lt a a d hd))]
    exact List.map_id _
  have hb : (decDigits b).map (charVal ∘ Nat.digitChar) = decDigits b := by
    rw [show (decDigits b).map (charVal ∘ Nat.digitChar) = (decDigits b).map id from
      List.map_congr_left (fun d hd => charVal_digitChar d (decDigitsF_lt b b d hd))]
    exact List.map_id _
  rw [ha, hb] at hval
  exact decDigits_injective hval

theorem string_append_left_cancel {s a b : String} (h : s ++ a = s ++ b) : a = b := by
  have hd := congrArg String.data h
  rw [String.data_append, String.data_append] at hd
  exact String.ext (List.append_cancel_left hd)

theorem tmpVar_natStr_injective :
    ∀ a b : Nat, ("tmpVar" ++ natStr a : String) = "tmpVar" ++ natStr b → a = b := by
  intro a b h
  exact natStr_injective (string_append_left_cancel h)

theorem tmpVar_ne_loopIdx (x y : String) : ("tmpVar" ++ x : String) ≠ "loopIdx" ++ y := by
  intro h
  have h2 := congrArg String.data h
  rw [String.data_append, String.data_append] at h2
  have ht : ("tmpVar" : String).data = [ 't', 'm', 'p', 'V', 'a', 'r' ] := rfl
  have hl : ("loopIdx" : String).data = [ 'l', 'o', 'o', 'p', 'I', 'd', 'x' ] := rfl
  rw [ht, hl] at h2
  simp only [List.cons_append, List.cons.injEq] at h2
  exact absurd h2.1 (by decide)

/-- Claim C3: a result recorded for an identity handle is returned
verbatim by a subsequent lookup; since recording prepends the newest
binding and lookups take the first hit, the string returned is the one
last recorded for that handle. -/
theorem getResult_returns_last_recorded (ctx : CodeSquashContext) (k : Nat) (v : String) :
    getResult (addResultNamed ctx k v) k = some v := by
  simp [getResult, addResultNamed, List.lookup]

/-- Claim C4: looking up a node with no recorded result (and not
registered as a vector observable, which also counts as a visit) yields
the fatal `NotFound` condition, modelled as `none`. -/
theorem getResult_unvisited_notFound (ctx : CodeSquashContext) (k : Nat)
    (h1 : ctx.nodeNames.lookup k = none)
    (h2 : ctx.vecObsIndices.lookup k = none) :
    getResult ctx k = none := by
  simp [getResult, h1, h2]

/-- Witness: looking up node 5 in a fresh context is `NotFound`. -/
theorem getResult_unvisited_notFound_inst :
    getResult (mkCodeSquashContext []) 5 = none :=
  getResult_unvisited_notFound (mkCodeSquashContext []) 5 rfl rfl

/-- Claim C9: `outputSize` returns the stored size for a handle present
in the output-size table and defaults to 1 for an absent handle. -/
theorem outputSize_stored_or_default (ctx : CodeSquashContext) (k : Nat) :
    (ctx.nodeOutputSizes.lookup k = none → outputSize ctx k = 1) ∧
    (∀ sz, ctx.nodeOutputSizes.lookup k = some sz → outputSize ctx k = sz) := by
  constructor
  · intro h; simp [outputSize, h]
  · intro sz h; simp [outputSize, h]

/-- Witness: in a table mapping node 3 to size 5, node 7 defaults to 1
and node 3 reads back 5. -/
theorem outputSize_stored_or_default_inst :
    outputSize (mkCodeSquashContext [(3, 5)]) 7 = 1 ∧
    outputSize (mkCodeSquashContext [(3, 5)]) 3 = 5 :=
  ⟨(outputSize_stored_or_default (mkCodeSquashContext [(3, 5)]) 7).1 rfl,
   (outputSize_stored_or_default (mkCodeSquashContext [(3, 5)]) 3).2 5 rfl⟩

theorem intercalate_go_acc (l : List String) :
    ∀ acc1 acc2 sep : String,
      String.intercalate.go (acc1 ++ acc2) sep l = acc1 ++ String.intercalate.go acc2 sep l := by
  induction l with
  | nil => intro acc1 acc2 sep; rfl
  | cons a as ih =>
    intro acc1 acc2 sep
    show String.intercalate.go (acc1 ++ acc2 ++ sep ++ a) sep as =
      acc1 ++ String.intercalate.go (acc2 ++ sep ++ a) sep as
    rw [String.append_assoc, String.append_assoc, ← String.append_assoc acc2 sep a]
    exact ih acc1 (acc2 ++ sep ++ a) sep

theorem intercalate_cons_cons (s x : String) (l : List String) :
    String.intercalate ", " (s :: x :: l) = s ++ ", " ++ String.intercalate ", " (x :: l) := by
  show String.intercalate.go s ", " (x :: l) = s ++ ", " ++ String.intercalate.go x ", " l
  show String.intercalate.go (s ++ ", " ++ x) ", " l = s ++ ", " ++ String.intercalate.go x ", " l
  exact intercalate_go_acc l (s ++ ", ") x ", "

theorem buildArgs_cons_cons_some (ctx : CodeSquashContext) (a b : CallArg)
    (rest2 : List CallArg) (p : String × CodeSquashContext)
    (hb : buildArg ctx a = some p) :
    buildArgs ctx (a :: b :: rest2) =
      (buildArgs p.2 (b :: rest2)).map (fun q => (p.1 ++ ", " ++ q.1, q.2)) := by
  show (match buildArg ctx a with
    | some p => (buildArgs p.2 (b :: rest2)).map (fun q => (p.1 ++ ", " ++ q.1, q.2))
    | none => none) =
    (buildArgs p.2 (b :: rest2)).map (fun q => (p.1 ++ ", " ++ q.1, q.2))
  rw [hb]

theorem buildArgs_cons_cons_none (ctx : CodeSquashContext) (a b : CallArg)
    (rest2 : List CallArg) (hb : buildArg ctx a = none) :
    buildArgs ctx (a :: b :: rest2) = none := by
  show (match buildArg ctx a with
    | some p => (buildArgs p.2 (b :: rest2)).map (fun q => (p.1 ++ ", " ++ q.1, q.2))
    | none => none) = none
  rw [hb]

theorem buildArgList_cons_some (ctx : CodeSquashContext) (a : CallArg)
    (rest : List CallArg) (p : String × CodeSquashContext)
    (hb : buildArg ctx a = some p) :
    buildArgList ctx (a :: rest) =
      (buildArgList p.2 rest).map (fun q => (p.1 :: q.1, q.2)) := by
  show (match buildArg ctx a with
    | some p => (buildArgList p.2 rest).map (fun q => (p.1 :: q.1, q.2))
    | none => none) =
    (buildArgList p.2 rest).map (fun q => (p.1 :: q.1, q.2))
  rw [hb]

theorem buildArgList_cons_none (ctx : CodeSquashContext) (a : CallArg)
    (rest : List CallArg) (hb : buildArg ctx a = none) :
    buildArgList ctx (a :: rest) = none := by
  show (match buildArg ctx a with
    | some p => (buildArgList p.2 rest).map (fun q => (p.1 :: q.1, q.2))
    | none => none) = none
  rw [hb]

theorem buildArgList_shape (ctx : CodeSquashContext) (a : CallArg)
    (rest : List CallArg) (r : List String × CodeSquashContext)
    (h : buildArgList ctx (a :: rest) = some r) : ∃ s t, r.1 = s :: t := by
  cases hb : buildArg ctx a with
  | none => rw [buildArgList_cons_none ctx a rest hb] at h; simp at h
  | some p =>
    rw [buildArgList_cons_some ctx a rest p hb] at h
    cases hr2 : buildArgList p.2 rest with
    | none => rw [hr2] at h; simp at h
    | some r2 =>
      rw [hr2] at h
      simp only [Option.map_some', Option.some.injEq] at h
      exact ⟨p.1, r2.1, by rw [← h]⟩

theorem buildArgs_eq_intercalate (args : List CallArg) :
    ∀ ctx : CodeSquashContext,
      buildArgs ctx args =
        (buildArgList ctx args).map (fun p => (String.intercalate ", " p.1, p.2)) := by
  induction args with
  | nil => intro ctx; rfl
  | cons a rest ih =>
    intro ctx
    cases rest with
    | nil =>
      cases hb : buildArg ctx a with
      | none => rw [buildArgList_cons_none ctx a [] hb]; simpa [buildArgs] using hb
      | some p =>
        rw [buildArgList_cons_some ctx a [] p hb]
        show buildArg ctx a = _
        rw [hb]
        show some p = some (String.intercalate ", " [p.1], p.2)
        obtain ⟨s, c⟩ := p
        rfl
    | cons b rest2 =>
      cases hb : buildArg ctx a with
      | none =>
        rw [buildArgs_cons_cons_none ctx a b rest2 hb, buildArgList_cons_none ctx a _ hb]
        rfl
      | some p =>
        rw [buildArgs_cons_cons_some ctx a b rest2 p hb,
          buildArgList_cons_some ctx a _ p hb, ih p.2]
        cases hr : buildArgList p.2 (b :: rest2) with
        | none => rfl
        | some r =>
          obtain ⟨s, t, hshape⟩ := buildArgList_shape p.2 b rest2 r hr
          simp only [Option.map_some', Option.some.injEq, Prod.mk.injEq]
          rw [hshape]
          exact ⟨(intercalate_cons_cons p.1 s t).symm, trivial⟩

/-- Claim C7: `buildCall` yields the function name followed by a
parenthesized parameter list in which each argument has been converted
per its kind by the matching `buildArg` overload (collected in order by
`buildArgList`) and the conversions are joined with the one fixed
separator `", "`; the function only composes text. -/
theorem buildCall_structure (ctx : CodeSquashContext) (f : String) (args : List CallArg) :
    buildCall ctx f args =
      (buildArgList ctx args).map
        (fun p => (f ++ "(" ++ String.intercalate ", " p.1 ++ ")", p.2)) := by
  unfold buildCall
  rw [buildArgs_eq_intercalate]
  cases buildArgList ctx args with
  | none => rfl
  | some p => rfl

/-- Claim C10: `buildCall` with no arguments is exactly the function
name followed by an empty parenthesized parameter list, with no
separator emitted. -/
theorem buildCall_no_args (ctx : CodeSquashContext) (f : String) :
    buildCall ctx f [] = some (f ++ "()", ctx) := by
  show some (f ++ "(" ++ "" ++ ")", ctx) = some (f ++ "()", ctx)
  rw [String.append_empty, String.append_assoc]
  have h : ("(" ++ ")" : String) = "()" := rfl
  rw [h]

theorem genTmpNames_eq (n : Nat) :
    ∀ ctx : CodeSquashContext,
      genTmpNames n ctx =
        (List.range n).map (fun i => "tmpVar" ++ natStr (ctx.tmpVarIdx + i)) := by
  induction n with
  | zero => intro ctx; rfl
  | succ m ih =>
    intro ctx
    show (getTmpVarName ctx).1 :: genTmpNames m (getTmpVarName ctx).2 = _
    rw [ih]
    rw [List.range_succ_eq_map]
    simp only [List.map_cons, List.map_map, Nat.add_zero]
    congr 1
    exact List.map_congr_left (fun i _ => by
      show ("tmpVar" ++ natStr ((getTmpVarName ctx).2.tmpVarIdx + i) : String) =
        "tmpVar" ++ natStr (ctx.tmpVarIdx + (i + 1))
      rw [show (getTmpVarName ctx).2.tmpVarIdx + i = ctx.tmpVarIdx + (i + 1) from by
        show ctx.tmpVarIdx + 1 + i = ctx.tmpVarIdx + (i + 1)
        omega])

/-- Claim C8: `getTmpVarName` called `N` times in one run yields `N`
pairwise-distinct names, and none of them is a loop-variable name of
any nesting level. -/
theorem getTmpVarName_names_distinct (N : Nat) (ctx : CodeSquashContext) :
    (genTmpNames N ctx).Nodup ∧
      ∀ s ∈ genTmpNames N ctx, ∀ lvl, s ≠ loopIdxName lvl := by
  constructor
  · rw [genTmpNames_eq]
    refine List.Nodup.map ?_ (List.nodup_range N)
    intro i j hij
    have := tmpVar_natStr_injective (ctx.tmpVarIdx + i) (ctx.tmpVarIdx + j) hij
    omega
  · intro s hs lvl
    rw [genTmpNames_eq] at hs
    obtain ⟨i, _, rfl⟩ := List.mem_map.1 hs
    exact tmpVar_ne_loopIdx (natStr (ctx.tmpVarIdx + i)) (natStr lvl)

theorem saveList_hit (ctx : CodeSquashContext) (colId : Nat) (elems : List Nat)
    (name n : String) (h : ctx.listNames.lookup colId = some n) :
    saveListAsArray ctx colId elems name = some (n, ctx) := by
  unfold saveListAsArray
  rw [h]

theorem saveList_miss_eq (ctx : CodeSquashContext) (colId : Nat) (elems : List Nat)
    (hm : ctx.listNames.lookup colId = none) :
    saveListAsArray ctx colId elems "" =
      match resultsOf (getTmpVarName ctx).2 elems with
      | some rs =>
        some ((getTmpVarName ctx).1,
          { (getTmpVarName ctx).2 with
            code := (getTmpVarName ctx).2.code ++ [arrayDecl (getTmpVarName ctx).1 rs],
            listNames := (colId, (getTmpVarName ctx).1) :: (getTmpVarName ctx).2.listNames })
      | none => none := by
  unfold saveListAsArray
  rw [hm]
  rfl

theorem saveList_miss_spec (ctx : CodeSquashContext) (colId : Nat) (elems : List Nat)
    (n1 : String) (ctx1 : CodeSquashContext)
    (hm : ctx.listNames.lookup colId = none)
    (h : saveListAsArray ctx colId elems "" = some (n1, ctx1)) :
    n1 = "tmpVar" ++ natStr ctx.tmpVarIdx ∧
      ctx1.listNames = (colId, n1) :: ctx.listNames ∧
      ctx1.tmpVarIdx = ctx.tmpVarIdx + 1 := by
  rw [saveList_miss_eq ctx colId elems hm] at h
  cases hr : resultsOf (getTmpVarName ctx).2 elems with
  | none => rw [hr] at h; exact Option.noConfusion h
  | some rs =>
    rw [hr] at h
    have h2 := Option.some.inj h
    have hn : (getTmpVarName ctx).1 = n1 := congrArg Prod.fst h2
    have hc := congrArg Prod.snd h2
    subst hn
    subst hc
    exact ⟨rfl, rfl, rfl⟩

/-- Claim C6: materializing a collection caches by the collection's
identity: once a collection id has produced a name, any further call
with the same id returns that same name and leaves the context
untouched (so the array-initializer is emitted only once); a second,
distinct collection id materialized with the default name gets a
different name even if its element list is equal. -/
theorem saveListAsArray_identity_caching
    (ctx : CodeSquashContext) (id1 id2 : Nat) (e1 e1b e2 : List Nat)
    (nm2 n1 : String) (ctx1 : CodeSquashContext)
    (hne : id1 ≠ id2)
    (hm1 : ctx.listNames.lookup id1 = none)
    (hm2 : ctx.listNames.lookup id2 = none)
    (h1 : saveListAsArray ctx id1 e1 "" = some (n1, ctx1)) :
    saveListAsArray ctx1 id1 e1b nm2 = some (n1, ctx1) ∧
      ∀ n2 ctx2, saveListAsArray ctx1 id2 e2 "" = some (n2, ctx2) → n1 ≠ n2 := by
  obtain ⟨hn1, hln, hidx⟩ := saveList_miss_spec ctx id1 e1 n1 ctx1 hm1 h1
  have hbeq : (id2 == id1) = false := by
    exact beq_eq_false_iff_ne.mpr (Ne.symm hne)
  constructor
  · refine saveList_hit ctx1 id1 e1b nm2 n1 ?_
    rw [hln]
    simp [List.lookup]
  · intro n2 ctx2 h2
    have hm2b : ctx1.listNames.lookup id2 = none := by
      rw [hln]
      simp only [List.lookup, hbeq]
      exact hm2
    obtain ⟨hn2, _, _⟩ := saveList_miss_spec ctx1 id2 e2 n2 ctx2 hm2b h2
    rw [hn1, hn2, hidx]
    intro hEq
    have := tmpVar_natStr_injective _ _ hEq
    omega

/-- Witness: in a fresh context, materializing collection 0 then asking
again for collection 0 returns the same name with nothing re-emitted,
while collection 1 gets a different name. -/
theorem saveListAsArray_identity_caching_inst :
    saveListAsArray ctxW1 0 [] "z" = some ("tmpVar", ctxW1) ∧
      ∀ n2 ctx2, saveListAsArray ctxW1 1 [] "" = some (n2, ctx2) → "tmpVar" ≠ n2 :=
  saveListAsArray_identity_caching (mkCodeSquashContext []) 0 1 [] [] [] "z" "tmpVar"
    ctxW1 (by decide) rfl rfl rfl

theorem saveAsTemp_spec (G : Nat → List Nat) (ctx : CodeSquashContext) (m : Nat)
    (v nm : String) :
    (saveAsTemp G ctx m v nm).2.loopLevel = ctx.loopLevel ∧
      (saveAsTemp G ctx m v nm).2.activeVars = ctx.activeVars ∧
      (saveAsTemp G ctx m v nm).2.scopePtr = ctx.scopePtr ∧
      (((saveAsTemp G ctx m v nm).2.code = ctx.code ++ [declStmt (saveAsTemp G ctx m v nm).1 v] ∧
        (saveAsTemp G ctx m v nm).2.tempScope = ctx.tempScope) ∨
       ((saveAsTemp G ctx m v nm).2.code = ctx.code ∧
        (saveAsTemp G ctx m v nm).2.tempScope = ctx.tempScope ++ [declStmt (saveAsTemp G ctx m v nm).1 v])) := by
  unfold saveAsTemp
  by_cases hn : nm = "" <;>
    simp only [hn, ite_true, ite_false, if_pos, if_neg, not_false_iff] <;>
    split <;>
    simp [getTmpVarName]

theorem saveAsTemp_level0_tempScope (G : Nat → List Nat) (ctx : CodeSquashContext)
    (m : Nat) (v nm : String) (h : ctx.loopLevel = 0) :
    (saveAsTemp G ctx m v nm).2.tempScope = ctx.tempScope := by
  unfold saveAsTemp
  by_cases hn : nm = "" <;> simp [hn, getTmpVarName, h]

theorem saveAsTemp_hoists (G : Nat → List Nat) (ctx : CodeSquashContext) (m : Nat)
    (v nm : String) (hl : 0 < ctx.loopLevel)
    (hd : ∀ x ∈ G m, x ∉ ctx.activeVars) (hnm : nm ≠ "") :
    (saveAsTemp G ctx m v nm).2.tempScope = ctx.tempScope ++ [declStmt nm v] := by
  unfold saveAsTemp
  simp only [hnm, ite_false, if_neg, not_false_iff]
  rw [if_pos ⟨hl, hd⟩]

theorem beginLoop_fields (G : Nat → List Nat) (ctx : CodeSquashContext) (n : Nat) :
    (beginLoop G ctx n).loopLevel = ctx.loopLevel + 1 ∧
      (beginLoop G ctx n).activeVars = ctx.activeVars ++ G n ∧
      (beginLoop G ctx n).tempScope = ctx.tempScope ∧
      (beginLoop G ctx n).code = ctx.code ++ [loopHeader (outputSize ctx n) (ctx.loopLevel + 1)] ∧
      (beginLoop G ctx n).globalScope = ctx.globalScope := by
  unfold beginLoop
  by_cases h : ctx.loopLevel = 0 <;> simp [h]

theorem beginLoop_scopePtr_pos (G : Nat → List Nat) (ctx : CodeSquashContext) (n : Nat)
    (h : ctx.loopLevel ≠ 0) : (beginLoop G ctx n).scopePtr = ctx.scopePtr := by
  unfold beginLoop
  simp [h]

theorem beginLoop_scopePtr_zero (G : Nat → List Nat) (ctx : CodeSquashContext) (n : Nat)
    (h : ctx.loopLevel = 0) : (beginLoop G ctx n).scopePtr = some ctx.code.length := by
  unfold beginLoop
  simp [h]

theorem endLoop_level_vars (x : CodeSquashContext) (vars : List Nat) :
    (endLoop x vars).loopLevel = x.loopLevel - 1 ∧
      (endLoop x vars).activeVars = x.activeVars.take (x.activeVars.length - vars.length) := by
  by_cases h : x.loopLevel - 1 = 0
  · unfold endLoop; rw [if_pos h]; exact ⟨rfl, rfl⟩
  · unfold endLoop; rw [if_neg h]; exact ⟨rfl, rfl⟩

theorem endLoop_nosplice (x : CodeSquashContext) (vars : List Nat)
    (h : x.loopLevel - 1 ≠ 0) :
    (endLoop x vars).code = x.code ++ [loopCloser] ∧
      (endLoop x vars).tempScope = x.tempScope ∧
      (endLoop x vars).scopePtr = x.scopePtr ∧
      (endLoop x vars).globalScope = x.globalScope := by
  unfold endLoop
  rw [if_neg h]
  exact ⟨rfl, rfl, rfl, rfl⟩

theorem endLoop_splice (x : CodeSquashContext) (vars : List Nat)
    (h : x.loopLevel - 1 = 0) :
    (endLoop x vars).code = spliceAt (x.code ++ [loopCloser]) (x.scopePtr.getD 0) x.tempScope ∧
      (endLoop x vars).tempScope = [] ∧
      (endLoop x vars).scopePtr = none ∧
      (endLoop x vars).globalScope = x.globalScope := by
  unfold endLoop
  rw [if_pos h]
  exact ⟨rfl, rfl, rfl, rfl⟩

theorem saveList_miss_named_eq (ctx : CodeSquashContext) (id : Nat) (es : List Nat)
    (nm : String) (hm : ctx.listNames.lookup id = none) (hn : nm ≠ "") :
    saveListAsArray ctx id es nm =
      match resultsOf ctx es with
      | some rs =>
        some (nm,
          { ctx with
            code := ctx.code ++ [arrayDecl nm rs],
            listNames := (id, nm) :: ctx.listNames })
      | none => none := by
  unfold saveListAsArray
  rw [hm, if_neg hn]

theorem saveListAsArray_fields (ctx : CodeSquashContext) (id : Nat) (es : List Nat)
    (nm : String) (p : String × CodeSquashContext)
    (h : saveListAsArray ctx id es nm = some p) :
    p.2.loopLevel = ctx.loopLevel ∧ p.2.activeVars = ctx.activeVars ∧
      p.2.scopePtr = ctx.scopePtr ∧ p.2.tempScope = ctx.tempScope ∧
      p.2.globalScope = ctx.globalScope ∧ ∃ d, p.2.code = ctx.code ++ d := by
  cases hl : ctx.listNames.lookup id with
  | some n =>
    rw [saveList_hit ctx id es nm n hl] at h
    have h2 := Option.some.inj h
    have hc := congrArg Prod.snd h2
    rw [← hc]
    exact ⟨rfl, rfl, rfl, rfl, rfl, [], by simp⟩
  | none =>
    by_cases hn : nm = ""
    · subst hn
      rw [saveList_miss_eq ctx id es hl] at h
      cases hr : resultsOf (getTmpVarName ctx).2 es with
      | none => rw [hr] at h; exact Option.noConfusion h
      | some rs =>
        rw [hr] at h
        have h2 := Option.some.inj h
        have hc := congrArg Prod.snd h2
        rw [← hc]
        exact ⟨rfl, rfl, rfl, rfl, rfl, [arrayDecl (getTmpVarName ctx).1 rs], rfl⟩
    · rw [saveList_miss_named_eq ctx id es nm hl hn] at h
      cases hr : resultsOf ctx es with
      | none => rw [hr] at h; exact Option.noConfusion h
      | some rs =>
        rw [hr] at h
        have h2 := Option.some.inj h
        have hc := congrArg Prod.snd h2
        rw [← hc]
        exact ⟨rfl, rfl, rfl, rfl, rfl, [arrayDecl nm rs], rfl⟩

theorem exec_level_vars (G : Nat → List Nat) (c : Cmd) :
    ∀ ctx : CodeSquashContext,
      (exec G c ctx).loopLevel = ctx.loopLevel ∧
        (exec G c ctx).activeVars = ctx.activeVars := by
  induction c with
  | skip => intro ctx; exact ⟨rfl, rfl⟩
  | seq a b iha ihb =>
    intro ctx
    obtain ⟨h1, h2⟩ := iha ctx
    obtain ⟨h3, h4⟩ := ihb (exec G a ctx)
    exact ⟨h3.trans h1, h4.trans h2⟩
  | codeBody s => intro ctx; exact ⟨rfl, rfl⟩
  | globalScope s => intro ctx; exact ⟨rfl, rfl⟩
  | result k v =>
    intro ctx
    obtain ⟨h1, h2, _, _⟩ := saveAsTemp_spec G ctx k v ""
    exact ⟨h1, h2⟩
  | vecObs k i => intro ctx; exact ⟨rfl, rfl⟩
  | temp m v nm =>
    intro ctx
    obtain ⟨h1, h2, _, _⟩ := saveAsTemp_spec G ctx m v nm
    exact ⟨h1, h2⟩
  | listArray id es nm =>
    intro ctx
    show ((match saveListAsArray ctx id es nm with
      | some p => p.2
      | none => ctx).loopLevel = ctx.loopLevel ∧
      (match saveListAsArray ctx id es nm with
      | some p => p.2
      | none => ctx).activeVars = ctx.activeVars)
    cases h : saveListAsArray ctx id es nm with
    | none => exact ⟨rfl, rfl⟩
    | some p =>
      obtain ⟨h1, h2, _, _, _, _⟩ := saveListAsArray_fields ctx id es nm p h
      exact ⟨h1, h2⟩
  | loop n body ih =>
    intro ctx
    obtain ⟨hb1, hb2⟩ := ih (beginLoop G ctx n)
    obtain ⟨hg1, hg2, _, _, _⟩ := beginLoop_fields G ctx n
    obtain ⟨he1, he2⟩ := endLoop_level_vars (exec G body (beginLoop G ctx n)) (G n)
    constructor
    · show (endLoop (exec G body (beginLoop G ctx n)) (G n)).loopLevel = ctx.loopLevel
      rw [he1, hb1, hg1]
      omega
    · show (endLoop (exec G body (beginLoop G ctx n)) (G n)).activeVars = ctx.activeVars
      rw [he2, hb2, hg2]
      rw [List.length_append]
      rw [show ctx.activeVars.length + (G n).length - (G n).length = ctx.activeVars.length
        from by omega]
      exact List.take_left ctx.activeVars (G n)

theorem exec_result_eq (G : Nat → List Nat) (k : Nat) (v : String)
    (ctx : CodeSquashContext) :
    exec G (Cmd.result k v) ctx =
      addResultNamed (saveAsTemp G ctx k v "").2 k (saveAsTemp G ctx k v "").1 := rfl

theorem exec_temp_eq (G : Nat → List Nat) (m : Nat) (v nm : String)
    (ctx : CodeSquashContext) :
    exec G (Cmd.temp m v nm) ctx = (saveAsTemp G ctx m v nm).2 := rfl

theorem exec_listArray_none (G : Nat → List Nat) (id : Nat) (es : List Nat) (nm : String)
    (ctx : CodeSquashContext) (h : saveListAsArray ctx id es nm = none) :
    exec G (Cmd.listArray id es nm) ctx = ctx := by
  show (match saveListAsArray ctx id es nm with
    | some p => p.2
    | none => ctx) = ctx
  rw [h]

theorem exec_listArray_some (G : Nat → List Nat) (id : Nat) (es : List Nat) (nm : String)
    (ctx : CodeSquashContext) (p : String × CodeSquashContext)
    (h : saveListAsArray ctx id es nm = some p) :
    exec G (Cmd.listArray id es nm) ctx = p.2 := by
  show (match saveListAsArray ctx id es nm with
    | some p => p.2
    | none => ctx) = p.2
  rw [h]

theorem addResultNamed_fields (ctx : CodeSquashContext) (k : Nat) (v : String) :
    (addResultNamed ctx k v).code = ctx.code ∧
      (addResultNamed ctx k v).tempScope = ctx.tempScope ∧
      (addResultNamed ctx k v).scopePtr = ctx.scopePtr ∧
      (addResultNamed ctx k v).globalScope = ctx.globalScope := ⟨rfl, rfl, rfl, rfl⟩

theorem exec_extends_pos (G : Nat → List Nat) (c : Cmd) :
    ∀ ctx : CodeSquashContext, 1 ≤ ctx.loopLevel →
      (exec G c ctx).scopePtr = ctx.scopePtr ∧
        (∃ d, (exec G c ctx).code = ctx.code ++ d) ∧
        (∃ t, (exec G c ctx).tempScope = ctx.tempScope ++ t) := by
  induction c with
  | skip => intro ctx _; exact ⟨rfl, ⟨[], by simp [exec]⟩, ⟨[], by simp [exec]⟩⟩
  | seq a b iha ihb =>
    intro ctx hl
    obtain ⟨h1, ⟨d1, h2⟩, ⟨t1, h3⟩⟩ := iha ctx hl
    have hmid : 1 ≤ (exec G a ctx).loopLevel := by
      rw [(exec_level_vars G a ctx).1]; exact hl
    obtain ⟨h4, ⟨d2, h5⟩, ⟨t2, h6⟩⟩ := ihb (exec G a ctx) hmid
    refine ⟨h4.trans h1, ⟨d1 ++ d2, ?_⟩, ⟨t1 ++ t2, ?_⟩⟩
    · rw [show exec G (Cmd.seq a b) ctx = exec G b (exec G a ctx) from rfl, h5, h2,
        List.append_assoc]
    · rw [show exec G (Cmd.seq a b) ctx = exec G b (exec G a ctx) from rfl, h6, h3,
        List.append_assoc]
  | codeBody s =>
    intro ctx _
    exact ⟨rfl, ⟨[s], rfl⟩, ⟨[], by simp [exec, addToCodeBody]⟩⟩
  | globalScope s =>
    intro ctx _
    exact ⟨rfl, ⟨[], by simp [exec, addToGlobalScope]⟩, ⟨[], by simp [exec, addToGlobalScope]⟩⟩
  | result k v =>
    intro ctx _
    obtain ⟨_, _, h3, h4⟩ := saveAsTemp_spec G ctx k v ""
    rw [exec_result_eq G k v ctx]
    obtain ⟨ha1, ha2, ha3, _⟩ :=
      addResultNamed_fields (saveAsTemp G ctx k v "").2 k (saveAsTemp G ctx k v "").1
    rw [ha1, ha2, ha3]
    refine ⟨h3, ?_, ?_⟩
    · rcases h4 with ⟨hc, _⟩ | ⟨hc, _⟩
      · exact ⟨[declStmt (saveAsTemp G ctx k v "").1 v], hc⟩
      · exact ⟨[], by simp [hc]⟩
    · rcases h4 with ⟨_, ht⟩ | ⟨_, ht⟩
      · exact ⟨[], by simp [ht]⟩
      · exact ⟨[declStmt (saveAsTemp G ctx k v "").1 v], ht⟩
  | vecObs k i =>
    intro ctx _
    exact ⟨rfl, ⟨[], by simp [exec, addVecObs]⟩, ⟨[], by simp [exec, addVecObs]⟩⟩
  | temp m v nm =>
    intro ctx _
    obtain ⟨_, _, h3, h4⟩ := saveAsTemp_spec G ctx m v nm
    rw [exec_temp_eq G m v nm ctx]
    refine ⟨h3, ?_, ?_⟩
    · rcases h4 with ⟨hc, _⟩ | ⟨hc, _⟩
      · exact ⟨[declStmt (saveAsTemp G ctx m v nm).1 v], hc⟩
      · exact ⟨[], by simp [hc]⟩
    · rcases h4 with ⟨_, ht⟩ | ⟨_, ht⟩
      · exact ⟨[], by simp [ht]⟩
      · exact ⟨[declStmt (saveAsTemp G ctx m v nm).1 v], ht⟩
  | listArray id es nm =>
    intro ctx _
    cases h : saveListAsArray ctx id es nm with
    | none =>
      rw [exec_listArray_none G id es nm ctx h]
      exact ⟨rfl, ⟨[], by simp⟩, ⟨[], by simp⟩⟩
    | some p =>
      rw [exec_listArray_some G id es nm ctx p h]
      obtain ⟨_, _, h3, h4, _, d, h6⟩ := saveListAsArray_fields ctx id es nm p h
      exact ⟨h3, ⟨d, h6⟩, ⟨[], by simp [h4]⟩⟩
  | loop n body ih =>
    intro ctx hl
    obtain ⟨hg1, _, hg3, hg4, _⟩ := beginLoop_fields G ctx n
    have hgp : (beginLoop G ctx n).scopePtr = ctx.scopePtr :=
      beginLoop_scopePtr_pos G ctx n (by omega)
    have hbl : 1 ≤ (beginLoop G ctx n).loopLevel := by omega
    obtain ⟨h1, ⟨d, h2⟩, ⟨t, h3⟩⟩ := ih (beginLoop G ctx n) hbl
    have hmidlvl : (exec G body (beginLoop G ctx n)).loopLevel = ctx.loopLevel + 1 := by
      rw [(exec_level_vars G body (beginLoop G ctx n)).1, hg1]
    have hnz : (exec G body (beginLoop G ctx n)).loopLevel - 1 ≠ 0 := by omega
    obtain ⟨he1, he2, he3, _⟩ := endLoop_nosplice (exec G body (beginLoop G ctx n)) (G n) hnz
    refine ⟨?_, ?_, ?_⟩
    · show (endLoop (exec G body (beginLoop G ctx n)) (G n)).scopePtr = ctx.scopePtr
      rw [he3, h1, hgp]
    · refine ⟨[loopHeader (outputSize ctx n) (ctx.loopLevel + 1)] ++ d ++ [loopCloser], ?_⟩
      show (endLoop (exec G body (beginLoop G ctx n)) (G n)).code = _
      rw [he1, h2, hg4]
      simp [List.append_assoc]
    · refine ⟨t, ?_⟩
      show (endLoop (exec G body (beginLoop G ctx n)) (G n)).tempScope = _
      rw [he2, h3, hg3]

theorem exec_loop_eq (G : Nat → List Nat) (n : Nat) (body : Cmd)
    (ctx : CodeSquashContext) :
    exec G (Cmd.loop n body) ctx =
      endLoop (exec G body (beginLoop G ctx n)) (G n) := rfl

theorem exec_level0_invariant (G : Nat → List Nat) (c : Cmd) :
    ∀ ctx : CodeSquashContext, ctx.loopLevel = 0 → ctx.tempScope = [] →
      (exec G c ctx).loopLevel = 0 ∧ (exec G c ctx).tempScope = [] := by
  induction c with
  | skip => intro ctx h0 ht; exact ⟨h0, ht⟩
  | seq a b iha ihb =>
    intro ctx h0 ht
    obtain ⟨h1, h2⟩ := iha ctx h0 ht
    exact ihb (exec G a ctx) h1 h2
  | codeBody s =>
    intro ctx h0 ht
    exact ⟨h0, ht⟩
  | globalScope s => intro ctx h0 ht; exact ⟨h0, ht⟩
  | result k v =>
    intro ctx h0 ht
    rw [exec_result_eq G k v ctx]
    obtain ⟨_, ha2, _, _⟩ :=
      addResultNamed_fields (saveAsTemp G ctx k v "").2 k (saveAsTemp G ctx k v "").1
    rw [ha2, saveAsTemp_level0_tempScope G ctx k v "" h0]
    exact ⟨(saveAsTemp_spec G ctx k v "").1.trans h0, ht⟩
  | vecObs k i => intro ctx h0 ht; exact ⟨h0, ht⟩
  | temp m v nm =>
    intro ctx h0 ht
    rw [exec_temp_eq G m v nm ctx, saveAsTemp_level0_tempScope G ctx m v nm h0]
    exact ⟨(saveAsTemp_spec G ctx m v nm).1.trans h0, ht⟩
  | listArray id es nm =>
    intro ctx h0 ht
    cases h : saveListAsArray ctx id es nm with
    | none => rw [exec_listArray_none G id es nm ctx h]; exact ⟨h0, ht⟩
    | some p =>
      rw [exec_listArray_some G id es nm ctx p h]
      obtain ⟨h1, _, _, h4, _, _⟩ := saveListAsArray_fields ctx id es nm p h
      exact ⟨h1.trans h0, h4.trans ht⟩
  | loop n body ih =>
    intro ctx h0 ht
    rw [exec_loop_eq]
    have hmidlvl : (exec G body (beginLoop G ctx n)).loopLevel = 1 := by
      rw [(exec_level_vars G body (beginLoop G ctx n)).1, (beginLoop_fields G ctx n).1, h0]
    have hz : (exec G body (beginLoop G ctx n)).loopLevel - 1 = 0 := by omega
    obtain ⟨_, he2, _, _⟩ := endLoop_splice (exec G body (beginLoop G ctx n)) (G n) hz
    refine ⟨?_, he2⟩
    have := (endLoop_level_vars (exec G body (beginLoop G ctx n)) (G n)).1
    omega

/-- Claim C5: executing any well-nested run leaves the loop level (and
the set of active loop variables) exactly as it was: each loop scope's
release restores the level to its value before the matching
`beginLoop`.  The release firing exactly once, in reverse order of the
`beginLoop` calls, is the structure of `Cmd.loop` itself, which models
the C++ block scoping of the RAII `LoopScope` handle; in particular `n`
nested opens followed by their `n` closes (`nestLoops`) return the
level to its starting value, 0 from a fresh context. -/
theorem loopScope_release_restores_level (G : Nat → List Nat) (c : Cmd)
    (ctx : CodeSquashContext) :
    ((exec G c ctx).loopLevel = ctx.loopLevel ∧
      (exec G c ctx).activeVars = ctx.activeVars) ∧
      (∀ ns : List Nat, ∀ b : Cmd,
        (exec G (nestLoops ns b) ctx).loopLevel = ctx.loopLevel) :=
  ⟨exec_level_vars G c ctx, fun ns b => (exec_level_vars G (nestLoops ns b) ctx).1⟩

/-- Claim C2: after any complete run from a freshly constructed context
the loop level is back to 0 and the temp-scope buffer has been fully
spliced into the code body (it is empty), and `assembleCode` returns
exactly the global-scope text, then the code-body text, then a return
statement built from the return expression, concatenated in that order
with no reordering. -/
theorem assembleCode_concatenation_order (G : Nat → List Nat) (p : Cmd)
    (sizes : List (Nat × Nat)) (r : String) :
    (exec G p (mkCodeSquashContext sizes)).loopLevel = 0 ∧
      (exec G p (mkCodeSquashContext sizes)).tempScope = [] ∧
      assembleCode (exec G p (mkCodeSquashContext sizes)) r =
        (exec G p (mkCodeSquashContext sizes)).globalScope ++
          String.join (exec G p (mkCodeSquashContext sizes)).code ++
          ("return " ++ r ++ ";\n") :=
  have h := exec_level0_invariant G p (mkCodeSquashContext sizes) rfl rfl
  ⟨h.1, h.2, rfl⟩

theorem declStmt_ne_loopCloser (nm v : String) : declStmt nm v ≠ loopCloser := by
  intro h
  have hlen := congrArg String.length h
  rw [show declStmt nm v = "const double " ++ nm ++ " = " ++ v ++ ";\n" from rfl] at hlen
  rw [String.length_append, String.length_append, String.length_append,
    String.length_append] at hlen
  rw [show ("const double " : String).length = 13 from rfl,
    show (" = " : String).length = 3 from rfl,
    show (";\n" : String).length = 2 from rfl,
    show loopCloser.length = 2 from rfl] at hlen
  omega

theorem exec_loop_level0_decomp (G : Nat → List Nat) (n : Nat) (body : Cmd)
    (ctx : CodeSquashContext) (h0 : ctx.loopLevel = 0) :
    ∃ d, (exec G body (beginLoop G ctx n)).code =
        ctx.code ++ [loopHeader (outputSize ctx n) (ctx.loopLevel + 1)] ++ d ∧
      (exec G (Cmd.loop n body) ctx).code =
        ctx.code ++ (exec G body (beginLoop G ctx n)).tempScope ++
          [loopHeader (outputSize ctx n) (ctx.loopLevel + 1)] ++ d ++ [loopCloser] := by
  obtain ⟨hb1, _, _, hb4, _⟩ := beginLoop_fields G ctx n
  have hbl : 1 ≤ (beginLoop G ctx n).loopLevel := by omega
  obtain ⟨hp, ⟨d, hc⟩, _⟩ := exec_extends_pos G body (beginLoop G ctx n) hbl
  have hmidlvl : (exec G body (beginLoop G ctx n)).loopLevel = 1 := by
    rw [(exec_level_vars G body (beginLoop G ctx n)).1, hb1, h0]
  have hz : (exec G body (beginLoop G ctx n)).loopLevel - 1 = 0 := by omega
  obtain ⟨he1, _, _, _⟩ := endLoop_splice (exec G body (beginLoop G ctx n)) (G n) hz
  have hmidcode : (exec G body (beginLoop G ctx n)).code =
      ctx.code ++ [loopHeader (outputSize ctx n) (ctx.loopLevel + 1)] ++ d := by
    rw [hc, hb4]
  have hptr : (exec G body (beginLoop G ctx n)).scopePtr.getD 0 = ctx.code.length := by
    rw [hp, beginLoop_scopePtr_zero G ctx n h0]
    rfl
  refine ⟨d, hmidcode, ?_⟩
  rw [exec_loop_eq, he1, hptr, hmidcode]
  unfold spliceAt
  rw [show ctx.code ++ [loopHeader (outputSize ctx n) (ctx.loopLevel + 1)] ++ d ++ [loopCloser] =
    ctx.code ++ ([loopHeader (outputSize ctx n) (ctx.loopLevel + 1)] ++ d ++ [loopCloser]) from by
      simp [List.append_assoc]]
  rw [List.take_left, List.drop_left]
  simp [List.append_assoc]

theorem fill_hoists (G : Nat → List Nat) (m : Nat) (v nm : String) (hnm : nm ≠ "")
    (K : CmdK) :
    ∀ ctx : CodeSquashContext, 1 ≤ ctx.loopLevel →
      (∀ x ∈ G m, x ∉ ctx.activeVars ∧ x ∉ K.kvars G) →
      declStmt nm v ∈ (exec G (K.fill (Cmd.temp m v nm)) ctx).tempScope := by
  induction K with
  | hole =>
    intro ctx hl hd
    rw [show CmdK.fill CmdK.hole (Cmd.temp m v nm) = Cmd.temp m v nm from rfl,
      exec_temp_eq, saveAsTemp_hoists G ctx m v nm hl (fun x hx => (hd x hx).1) hnm]
    simp
  | seqL k b ih =>
    intro ctx hl hd
    have hmem := ih ctx hl hd
    have hlvl : 1 ≤ (exec G (k.fill (Cmd.temp m v nm)) ctx).loopLevel := by
      rw [(exec_level_vars G (k.fill (Cmd.temp m v nm)) ctx).1]; exact hl
    obtain ⟨_, _, ⟨t, htt⟩⟩ := exec_extends_pos G b (exec G (k.fill (Cmd.temp m v nm)) ctx) hlvl
    rw [show exec G (CmdK.fill (CmdK.seqL k b) (Cmd.temp m v nm)) ctx =
      exec G b (exec G (k.fill (Cmd.temp m v nm)) ctx) from rfl, htt]
    exact List.mem_append_left t hmem
  | seqR a k ih =>
    intro ctx hl hd
    have hfields := exec_level_vars G a ctx
    have hlvl : 1 ≤ (exec G a ctx).loopLevel := by rw [hfields.1]; exact hl
    have hd2 : ∀ x ∈ G m, x ∉ (exec G a ctx).activeVars ∧ x ∉ k.kvars G := by
      intro x hx
      rw [hfields.2]
      exact hd x hx
    exact ih (exec G a ctx) hlvl hd2
  | loopK n2 k ih =>
    intro ctx hl hd
    rw [show exec G (CmdK.fill (CmdK.loopK n2 k) (Cmd.temp m v nm)) ctx =
      endLoop (exec G (k.fill (Cmd.temp m v nm)) (beginLoop G ctx n2)) (G n2) from rfl]
    obtain ⟨hb1, hb2, _, _, _⟩ := beginLoop_fields G ctx n2
    have hlvl : 1 ≤ (beginLoop G ctx n2).loopLevel := by omega
    have hd2 : ∀ x ∈ G m, x ∉ (beginLoop G ctx n2).activeVars ∧ x ∉ k.kvars G := by
      intro x hx
      obtain ⟨hx1, hx2⟩ := hd x hx
      rw [hb2]
      refine ⟨?_, ?_⟩
      · intro hmem
        rcases List.mem_append.1 hmem with h | h
        · exact hx1 h
        · exact hx2 (List.mem_append_left (k.kvars G) h)
      · intro hmem
        exact hx2 (List.mem_append_right (G n2) hmem)
    have hmem := ih (beginLoop G ctx n2) hlvl hd2
    have hmidlvl : (exec G (k.fill (Cmd.temp m v nm)) (beginLoop G ctx n2)).loopLevel =
        ctx.loopLevel + 1 := by
      rw [(exec_level_vars G (k.fill (Cmd.temp m v nm)) (beginLoop G ctx n2)).1, hb1]
    have hnz : (exec G (k.fill (Cmd.temp m v nm)) (beginLoop G ctx n2)).loopLevel - 1 ≠ 0 := by
      omega
    obtain ⟨_, he2, _, _⟩ :=
      endLoop_nosplice (exec G (k.fill (Cmd.temp m v nm)) (beginLoop G ctx n2)) (G n2) hnz
    rw [he2]
    exact hmem

/-- Claim C1: take any run shaped as a loop over node `n` whose body
contains, at any nesting depth of further loops (the one-hole context
`K`), a `saveAsTemp` of an expression for node `m` that depends on no
loop variable active at that point; provided the emitted assignment
statement is not textually emitted anywhere else in the loop (the two
count hypotheses), the final code body contains that assignment exactly
once, at a position strictly before the outermost loop's header
statement.  (`assembleCode` then concatenates the fragments in this
order, so the same holds of the final assembled code.) -/
theorem saveAsTemp_loop_invariant_hoisted_once (G : Nat → List Nat)
    (ctx : CodeSquashContext) (n m : Nat) (v nm : String) (K : CmdK)
    (h0 : ctx.loopLevel = 0) (hav : ctx.activeVars = [])
    (hnm : nm ≠ "")
    (hinv : ∀ x ∈ G m, x ∉ G n ∧ x ∉ K.kvars G)
    (hcc : List.count (declStmt nm v)
      (exec G (K.fill (Cmd.temp m v nm)) (beginLoop G ctx n)).code = 0)
    (hdup : List.count (declStmt nm v)
      (exec G (K.fill (Cmd.temp m v nm)) (beginLoop G ctx n)).tempScope ≤ 1) :
    List.count (declStmt nm v)
        (exec G (Cmd.loop n (K.fill (Cmd.temp m v nm))) ctx).code = 1 ∧
      ∃ i j : Nat, i < j ∧
        (exec G (Cmd.loop n (K.fill (Cmd.temp m v nm))) ctx).code[i]? =
          some (declStmt nm v) ∧
        (exec G (Cmd.loop n (K.fill (Cmd.temp m v nm))) ctx).code[j]? =
          some (loopHeader (outputSize ctx n) (ctx.loopLevel + 1)) := by
  obtain ⟨hb1, hb2, _, _, _⟩ := beginLoop_fields G ctx n
  have hbl : 1 ≤ (beginLoop G ctx n).loopLevel := by omega
  have hd2 : ∀ x ∈ G m, x ∉ (beginLoop G ctx n).activeVars ∧ x ∉ K.kvars G := by
    intro x hx
    obtain ⟨hx1, hx2⟩ := hinv x hx
    rw [hb2, hav]
    refine ⟨?_, hx2⟩
    intro hmem
    rcases List.mem_append.1 hmem with h | h
    · exact absurd h (List.not_mem_nil x)
    · exact hx1 h
  have hmemT := fill_hoists G m v nm hnm K (beginLoop G ctx n) hbl hd2
  obtain ⟨d, hmidcode, hfincode⟩ :=
    exec_loop_level0_decomp G n (K.fill (Cmd.temp m v nm)) ctx h0
  have hccparts := hcc
  rw [hmidcode] at hccparts
  simp only [List.count_append] at hccparts
  have hclo : List.count (declStmt nm v) [loopCloser] = 0 := by
    have hne := declStmt_ne_loopCloser nm v
    simp [List.count_cons, Ne.symm hne]
  have hTone : List.count (declStmt nm v)
      (exec G (K.fill (Cmd.temp m v nm)) (beginLoop G ctx n)).tempScope = 1 := by
    have hTpos := List.count_pos_iff.2 hmemT
    omega
  constructor
  · rw [hfincode]
    simp only [List.count_append]
    omega
  · obtain ⟨i0, hi0lt, hi0⟩ := List.mem_iff_getElem.1 hmemT
    refine ⟨ctx.code.length + i0,
      ctx.code.length +
        (exec G (K.fill (Cmd.temp m v nm)) (beginLoop G ctx n)).tempScope.length,
      by omega, ?_, ?_⟩
    · rw [show (exec G (Cmd.loop n (K.fill (Cmd.temp m v nm))) ctx).code =
        ctx.code ++ ((exec G (K.fill (Cmd.temp m v nm)) (beginLoop G ctx n)).tempScope ++
          ([loopHeader (outputSize ctx n) (ctx.loopLevel + 1)] ++ (d ++ [loopCloser])))
        from by rw [hfincode]; simp [List.append_assoc]]
      rw [List.getElem?_append_right (by omega : ctx.code.length ≤ ctx.code.length + i0)]
      rw [show ctx.code.length + i0 - ctx.code.length = i0 from by omega]
      simp [List.getElem?_append, hi0lt, List.getElem?_eq_getElem, hi0]
    · rw [show (exec G (Cmd.loop n (K.fill (Cmd.temp m v nm))) ctx).code =
        (ctx.code ++ (exec G (K.fill (Cmd.temp m v nm)) (beginLoop G ctx n)).tempScope) ++
          ([loopHeader (outputSize ctx n) (ctx.loopLevel + 1)] ++ (d ++ [loopCloser]))
        from by rw [hfincode]; simp [List.append_assoc]]
      rw [List.getElem?_append_right (le_of_eq (List.length_append _ _))]
      rw [show ctx.code.length +
          (exec G (K.fill (Cmd.temp m v nm)) (beginLoop G ctx n)).tempScope.length -
          (ctx.code ++
            (exec G (K.fill (Cmd.temp m v nm)) (beginLoop G ctx n)).tempScope).length = 0
        from by rw [List.length_append]; omega]
      simp

/-- Witness: one loop over node 1 (which depends on vector observable
10) with a single hoisted save of node 2 (no dependencies), from a
fresh context. -/
theorem saveAsTemp_loop_invariant_hoisted_once_inst :
    List.count (declStmt "t0" "x")
        (exec depsW (Cmd.loop 1 (CmdK.fill CmdK.hole (Cmd.temp 2 "x" "t0")))
          (mkCodeSquashContext [])).code = 1 ∧
      ∃ i j : Nat, i < j ∧
        (exec depsW (Cmd.loop 1 (CmdK.fill CmdK.hole (Cmd.temp 2 "x" "t0")))
          (mkCodeSquashContext [])).code[i]? = some (declStmt "t0" "x") ∧
        (exec depsW (Cmd.loop 1 (CmdK.fill CmdK.hole (Cmd.temp 2 "x" "t0")))
          (mkCodeSquashContext [])).code[j]? =
          some (loopHeader (outputSize (mkCodeSquashContext []) 1)
            ((mkCodeSquashContext []).loopLevel + 1)) :=
  saveAsTemp_loop_invariant_hoisted_once depsW (mkCodeSquashContext []) 1 2 "x" "t0"
    CmdK.hole rfl rfl (by decide) (by decide) (by decide) (by decide)
